import Mathlib

/-!
Verification of `read_fields_from_xml_file_and_dump_to_excel.py`.

The script is a linear pipeline: enumerate a folder, dispatch each file by
extension to an extractor (`extract_from_xml` for `.xml`; `extract_from_met`
exists for `.met` but its dispatch branch is commented out), collect the
non-falsy records and export them as one table.

Shallow embedding choices:
* An XML document is an `Element` tree; `ElementTree.find` with a simple
  relative path (`./a/b`, modelled as the tag list `["a", "b"]`) is
  `findPath`, returning the first match in document order.  `Element.text`
  is `Option String` (`None` in Python for an empty element).
* Reading a file is abstracted by `ReadResult`: either the text content is
  available (as lines, together with the outcome of parsing the same bytes
  as XML), or opening raises an IOError with a message.
* Python exceptions that escape a function are the `.error` case of
  `Except PyExc`; `print` diagnostics are collected in a `List LogMsg`.
* `os.listdir` order is a parameter: `process_folder` takes the directory
  listing as an explicit list of entries.
* The pandas step `pd.DataFrame(records, columns=cols); df.to_excel(...)`
  is modelled by shaping every record to the column list (`shapeRow`),
  a missing key or a `None` value both rendering as an empty cell (`none`).
-/

namespace XmlDumpScript

/-- A parsed XML element: tag, text content (`None` in Python when the
element has no text, e.g. `<name/>`), and child elements in document
order. -/
inductive Element where
  | mk (tag : String) (text : Option String) (children : List Element)

def Element.tag : Element → String
  | .mk t _ _ => t

def Element.text : Element → Option String
  | .mk _ x _ => x

def Element.children : Element → List Element
  | .mk _ _ c => c

/-- Python exceptions that escape a function of the script un-caught. -/
inductive PyExc where
  | ioError (msg : String)
  deriving DecidableEq

instance {ε α : Type} [DecidableEq ε] [DecidableEq α] : DecidableEq (Except ε α) := fun a b =>
  match a, b with
  | .error x, .error y =>
      if h : x = y then isTrue (by rw [h]) else isFalse (by intro hc; cases hc; exact h rfl)
  | .ok x, .ok y =>
      if h : x = y then isTrue (by rw [h]) else isFalse (by intro hc; cases hc; exact h rfl)
  | .error _, .ok _ => isFalse (by intro hc; cases hc)
  | .ok _, .error _ => isFalse (by intro hc; cases hc)

/-- Console diagnostics printed by the script. -/
inductive LogMsg where
  | scanStart (folder : String)
  | extractingXml (file : String)
  | xmlParseFailed (file : String) (cause : String)
  | metReadFailed (file : String) (cause : String)
  | exportSuccess (dest : String)
  | noDataWarning
  deriving DecidableEq

/-- Outcome of opening/reading one file: its text (as the list of lines
`readlines` would return, and the result of `ET.parse` on the same bytes,
`Except.error` being a `ParseError` with its message), or an IOError on
open. -/
inductive ReadResult where
  | ok (lines : List String) (xmlParse : Except String Element)
  | ioError (msg : String)

/-- One directory entry: its file name and what reading it yields. -/
structure DirEntry where
  name : String
  content : ReadResult

/-- A record produced by an extractor: an insertion-ordered dict from
column name to extracted value (`None` rendered as `none`). -/
abbrev Record := List (String × Option String)

/-- XML field mapping: column name to path expression (tag steps). -/
abbrev XmlMapping := List (String × List String)

/-- Key-value field mapping: column name to key string. -/
abbrev MetMapping := List (String × String)

/-- All elements reached from the candidate list by following the tag
steps, in document order: one step keeps, for each candidate in order,
its children bearing the step's tag. -/
def findMatches : List String → List Element → List Element
  | [], es => es
  | t :: ts, es =>
      findMatches ts (es.flatMap fun e => e.children.filter fun c => c.tag = t)

/-- `root.find(path)` of ElementTree for a simple relative tag path
(`./a/b` modelled as `["a", "b"]`): the first element in document order
reached by following the tag steps, `none` when the path matches no
node. -/
def findPath (e : Element) (p : List String) : Option Element :=
  (findMatches p [e]).head?

/-- `extract_from_xml(xml_file, data_mapping)`: parse the file, and for
each `(column, path)` pair set `record[column] = element.text if element
is not None else None`.  `ET.ParseError` is caught (logged, returns
`None`); an IOError opening the file is NOT caught and propagates. -/
def extract_from_xml (data_mapping : XmlMapping) (e : DirEntry) :
    Except PyExc (Option Record × List LogMsg) :=
  match e.content with
  | .ioError msg => .error (.ioError msg)
  | .ok _ (.error cause) => .ok (none, [.xmlParseFailed e.name cause])
  | .ok _ (.ok root) =>
      .ok (some (data_mapping.map fun cp =>
        (cp.1, ((findPath root cp.2).bind Element.text))), [])

/-- Python `str.strip()`: drop whitespace from both ends. -/
def pyStrip (l : List Char) : List Char :=
  ((l.dropWhile Char.isWhitespace).reverse.dropWhile Char.isWhitespace).reverse

/-- `line.split(':', 1)` guarded by `':' in line`: split at the FIRST
colon, `none` when the line has no colon. -/
def splitFirstColon : List Char → Option (List Char × List Char)
  | [] => none
  | c :: rest =>
      if c = ':' then some ([], rest)
      else (splitFirstColon rest).map fun kv => (c :: kv.1, kv.2)

/-- One line of a `.met` file as `extract_from_met` reads it: `none` for a
line without a colon, otherwise the stripped key and stripped value. -/
def metParseLine (s : String) : Option (String × String) :=
  (splitFirstColon s.data).map fun kv => (String.mk (pyStrip kv.1), String.mk (pyStrip kv.2))

/-- `file_data[key] = value` on a Python dict: overwrite the existing
entry or append a new one. -/
def upsert (k v : String) : List (String × String) → List (String × String)
  | [] => [(k, v)]
  | (k', v') :: rest => if k' = k then (k, v) :: rest else (k', v') :: upsert k v rest

/-- The `file_data` dict built by the line loop of `extract_from_met`. -/
def buildFileData (lines : List String) : List (String × String) :=
  lines.foldl
    (fun fd l => match metParseLine l with
      | some kv => upsert kv.1 kv.2 fd
      | none => fd)
    []

/-- `extract_from_met(met_file, data_mapping)`: read the lines, build
`file_data`, and map each column to `file_data.get(met_key)`.  IOError is
caught here (logged, returns `None`). -/
def extract_from_met (data_mapping : MetMapping) (e : DirEntry) :
    Option Record × List LogMsg :=
  match e.content with
  | .ioError msg => (none, [.metReadFailed e.name msg])
  | .ok lines _ =>
      (some (data_mapping.map fun ck => (ck.1, (buildFileData lines).lookup ck.2)), [])

/-- Python `str.lower()` (ASCII case folding on the characters). -/
def pyLower (s : String) : String := String.mk (s.data.map Char.toLower)

/-- Python `str.endswith(suffix)`: the suffix's characters end the
string's characters. -/
def pyEndsWith (s suffix : String) : Bool := suffix.data.isSuffixOf s.data

/-- Python truthiness of `record` at the `if record:` check: `None` and
the empty dict are falsy. -/
def recordTruthy : Option Record → Bool
  | none => false
  | some r => !r.isEmpty

/-- The per-entry body of the `for filename in os.listdir(...)` loop:
dispatch on the lower-cased suffix.  Only the `.xml` branch is live; the
`.met` branch is commented out in the source, so every other entry
produces no record and no log line. -/
def processEntry (xml_mapping : XmlMapping) (e : DirEntry) :
    Except PyExc (Option Record × List LogMsg) :=
  if pyEndsWith (pyLower e.name) ".xml" then
    match extract_from_xml xml_mapping e with
    | .error exc => .error exc
    | .ok (r, lg) => .ok (r, .extractingXml e.name :: lg)
  else
    .ok (none, [])

/-- The whole listing loop: collect the truthy records in order, and the
log lines; an un-caught exception aborts the loop (and the run). -/
def processList (xml_mapping : XmlMapping) :
    List DirEntry → Except PyExc (List Record × List LogMsg)
  | [] => .ok ([], [])
  | e :: rest =>
      match processEntry xml_mapping e with
      | .error exc => .error exc
      | .ok (r, lg) =>
          match processList xml_mapping rest with
          | .error exc => .error exc
          | .ok (recs, lgs) =>
              .ok ((if recordTruthy r then r.getD [] :: recs else recs), lg ++ lgs)

/-- `dict.fromkeys(keys)` order: keep the first occurrence of each key,
given the set of keys already seen. -/
def firstKeep (seen : List String) : List String → List String
  | [] => []
  | a :: l => if a ∈ seen then firstKeep seen l else a :: firstKeep (a :: seen) l

/-- `all_columns = list(dict.fromkeys(list(xml_mapping.keys()) + list(met_mapping.keys())))`. -/
def allColumns (xml_mapping : XmlMapping) (met_mapping : MetMapping) : List String :=
  firstKeep [] (xml_mapping.map Prod.fst ++ met_mapping.map Prod.fst)

/-- One row of `pd.DataFrame(all_records, columns=all_columns)`: the cell
under column `c` is the record's value at `c`, an absent key or a `None`
value both giving an empty cell. -/
def shapeRow (cols : List String) (rec : Record) : List (Option String) :=
  cols.map fun c => (rec.lookup c).join

/-- What one run of `process_folder` leaves behind: the written table
(`none` when no file was written) and the console log. -/
structure RunResult where
  output : Option (List String × List (List (Option String)))
  log : List LogMsg
  deriving DecidableEq

/-- `process_folder(folder_path, xml_mapping, met_mapping, output_excel_path)`
over the given directory listing. -/
def process_folder (xml_mapping : XmlMapping) (met_mapping : MetMapping)
    (folder_path output_excel_path : String) (listing : List DirEntry) :
    Except PyExc RunResult :=
  match processList xml_mapping listing with
  | .error exc => .error exc
  | .ok (all_records, lg) =>
      if all_records.isEmpty then
        .ok ⟨none, (.scanStart folder_path :: lg) ++ [.noDataWarning]⟩
      else
        .ok ⟨some (allColumns xml_mapping met_mapping,
                   all_records.map (shapeRow (allColumns xml_mapping met_mapping))),
             (.scanStart folder_path :: lg) ++ [.exportSuccess output_excel_path]⟩

/-! ### Spec-side definitions

These two definitions follow the spec's wording, to be compared with the
code-derived definitions above (refinement). -/

/-- Modelled from the spec: "a key appearing multiple times yields the
value from its last occurrence; a key never appearing yields absent" —
scan the lines from the last to the first and take the value of the first
line whose (trimmed) key equals the looked-up key. -/
def specLookup (key : String) (lines : List String) : Option String :=
  ((lines.reverse.filterMap metParseLine).find? fun p => p.1 = key).map Prod.snd

/-- Modelled from the spec: "the first-seen order of the XML mapping's
keys followed by any Key-Value mapping keys not already present
(duplicates collapsed)". -/
def specColumns (xml_mapping : XmlMapping) (met_mapping : MetMapping) : List String :=
  firstKeep [] (xml_mapping.map Prod.fst) ++
    (firstKeep [] (met_mapping.map Prod.fst)).filter
      fun k => decide (k ∉ xml_mapping.map Prod.fst)

/-! ### Helper lemmas -/

theorem lookup_map_of_mem {β γ : Type} (f : β → γ) :
    ∀ (m : List (String × β)) (c : String) (p : β),
      (m.map Prod.fst).Nodup → (c, p) ∈ m →
      (m.map fun q => (q.1, f q.2)).lookup c = some (f p)
  | [], _, _, _, hm => absurd hm (List.not_mem_nil _)
  | q :: m, c, p, hnd, hm => by
      rcases List.mem_cons.mp hm with h | h
      · subst h
        simp [List.lookup]
      · have hne : c ≠ q.1 := fun heq =>
          (List.nodup_cons.mp hnd).1 (heq ▸ List.mem_map.mpr ⟨(c, p), h, rfl⟩)
        have hbeq : (c == q.1) = false := beq_false_of_ne hne
        simpa [List.lookup, hbeq] using
          lookup_map_of_mem f m c p (List.nodup_cons.mp hnd).2 h

theorem lookup_upsert (k v k0 : String) :
    ∀ fd : List (String × String),
      (upsert k v fd).lookup k0 = if k = k0 then some v else fd.lookup k0
  | [] => by
      by_cases h : k = k0
      · subst h; simp [upsert, List.lookup]
      · simp [upsert, List.lookup, h, beq_false_of_ne (Ne.symm h)]
  | (k', v') :: fd => by
      by_cases h1 : k' = k
      · subst h1
        by_cases h2 : k' = k0
        · subst h2; simp [upsert, List.lookup]
        · simp [upsert, List.lookup, h2, beq_false_of_ne (Ne.symm h2)]
      · by_cases h2 : k' = k0
        · subst h2
          have hk : k ≠ k' := fun heq => h1 heq.symm
          simp [upsert, h1, List.lookup, hk]
        · simp [upsert, h1, List.lookup, beq_false_of_ne (Ne.symm h2),
            lookup_upsert k v k0 fd]

theorem option_map_or {α β : Type} (f : α → β) (a b : Option α) :
    Option.map f (a.or b) = (a.map f).or (b.map f) := by
  cases a <;> rfl

theorem lookup_buildFileData_step (fd : List (String × String)) (l : String) (k : String) :
    ((match metParseLine l with
      | some kv => upsert kv.1 kv.2 fd
      | none => fd) : List (String × String)).lookup k =
      (((Option.toList (metParseLine l)).find? fun p => p.1 = k).map Prod.snd).or
        (fd.lookup k) := by
  cases hp : metParseLine l with
  | none => simp
  | some kv =>
      by_cases hk : kv.1 = k
      · simp [lookup_upsert, hk, List.find?, Option.or]
      · simp [lookup_upsert, hk, List.find?, Option.or]

theorem lookup_foldl_buildFileData (k : String) :
    ∀ (lines : List String) (fd : List (String × String)),
      (lines.foldl
        (fun fd l => match metParseLine l with
          | some kv => upsert kv.1 kv.2 fd
          | none => fd) fd).lookup k =
      (specLookup k lines).or (fd.lookup k)
  | [], fd => by simp [specLookup]
  | l :: ls, fd => by
      rw [List.foldl_cons, lookup_foldl_buildFileData k ls]
      rw [lookup_buildFileData_step fd l k]
      have : specLookup k (l :: ls) =
          (specLookup k ls).or
            (((Option.toList (metParseLine l)).find? fun p => p.1 = k).map Prod.snd) := by
        simp only [specLookup, List.reverse_cons, List.filterMap_append,
          List.find?_append, option_map_or]
        cases hp : metParseLine l <;>
          simp [List.filterMap, hp, Option.toList, option_map_or]
      rw [this, Option.or_assoc]

theorem lookup_buildFileData (k : String) (lines : List String) :
    (buildFileData lines).lookup k = specLookup k lines := by
  simpa [List.lookup] using lookup_foldl_buildFileData k lines []

theorem splitFirstColon_some :
    ∀ (l k v : List Char), splitFirstColon l = some (k, v) →
      l = k ++ ':' :: v ∧ ':' ∉ k
  | [], _, _, h => by simp [splitFirstColon] at h
  | c :: rest, k, v, h => by
      by_cases hc : c = ':'
      · subst hc
        simp only [splitFirstColon, reduceIte, Option.some.injEq, Prod.mk.injEq] at h
        obtain ⟨h1, h2⟩ := h
        subst h1; subst h2
        simp
      · simp only [splitFirstColon, if_neg hc, Option.map_eq_some'] at h
        obtain ⟨⟨k', v'⟩, hrest, heq⟩ := h
        obtain ⟨hk, hv⟩ := Prod.mk.injEq .. ▸ heq
        obtain ⟨hl, hnotin⟩ := splitFirstColon_some rest k' v' hrest
        subst hk; subst hv
        constructor
        · simp [hl]
        · simp only [List.mem_cons, not_or]
          exact ⟨fun h' => hc h'.symm, hnotin⟩

theorem splitFirstColon_none :
    ∀ l : List Char, splitFirstColon l = none ↔ ':' ∉ l
  | [] => by simp [splitFirstColon]
  | c :: rest => by
      by_cases hc : c = ':'
      · subst hc; simp [splitFirstColon]
      · simp only [splitFirstColon, if_neg hc, Option.map_eq_none', List.mem_cons, not_or]
        rw [splitFirstColon_none rest]
        exact ⟨fun h => ⟨fun h' => hc h'.symm, h⟩, fun h => h.2⟩

theorem firstKeep_congr :
    ∀ (l s1 s2 : List String), (∀ x, x ∈ s1 ↔ x ∈ s2) →
      firstKeep s1 l = firstKeep s2 l
  | [], _, _, _ => rfl
  | a :: l, s1, s2, h => by
      by_cases ha : a ∈ s1
      · simp only [firstKeep, if_pos ha, if_pos ((h a).mp ha)]
        exact firstKeep_congr l s1 s2 h
      · simp only [firstKeep, if_neg ha, if_neg (fun hx => ha ((h a).mpr hx))]
        refine congrArg _ (firstKeep_congr l (a :: s1) (a :: s2) fun x => ?_)
        simp only [List.mem_cons]
        exact or_congr Iff.rfl (h x)

theorem firstKeep_append :
    ∀ (xs ys s : List String),
      firstKeep s (xs ++ ys) = firstKeep s xs ++ firstKeep (xs ++ s) ys
  | [], ys, s => rfl
  | a :: xs, ys, s => by
      by_cases ha : a ∈ s
      · simp only [List.cons_append, firstKeep, if_pos ha, List.append_eq]
        rw [firstKeep_append xs ys s]
        refine congrArg _ (firstKeep_congr ys (xs ++ s) ((a :: xs) ++ s) fun x => ?_)
        simp only [List.cons_append, List.mem_cons, List.mem_append]
        constructor
        · exact fun h => Or.inr h
        · rintro (rfl | h)
          · exact Or.inr ha
          · exact h
      · simp only [List.cons_append, firstKeep, if_neg ha, List.append_eq]
        rw [firstKeep_append xs ys (a :: s)]
        refine congrArg _ (congrArg _ (firstKeep_congr ys (xs ++ a :: s) (a :: (xs ++ s)) fun x => ?_))
        simp only [List.mem_append, List.mem_cons]
        tauto

theorem filter_filter_comp {α : Type} (p q : α → Bool) :
    ∀ l : List α, (l.filter p).filter q = l.filter fun x => p x && q x
  | [] => rfl
  | x :: l => by
      by_cases hp : p x = true
      · by_cases hq : q x = true <;>
          simp [List.filter_cons, hp, hq, filter_filter_comp p q l]
      · simp [List.filter_cons, Bool.eq_false_iff.mpr hp, filter_filter_comp p q l]

theorem firstKeep_eq_filter :
    ∀ (l s : List String),
      firstKeep s l = (firstKeep [] l).filter fun x => decide (x ∉ s)
  | [], s => rfl
  | a :: l, s => by
      have key : ∀ s' : List String,
          firstKeep s' l = (firstKeep [] l).filter fun x => decide (x ∉ s') :=
        fun s' => firstKeep_eq_filter l s'
      have hrhs : firstKeep ([] : List String) (a :: l) = a :: firstKeep [a] l := by
        simp [firstKeep]
      by_cases ha : a ∈ s
      · rw [hrhs]
        simp only [firstKeep, if_pos ha]
        rw [key s, key [a], List.filter_cons]
        have hdec : (decide (a ∉ s)) = false := by simp [ha]
        rw [hdec]
        simp only [Bool.false_eq_true, if_neg (by simp : ¬False)]
        rw [filter_filter_comp]
        refine (List.filter_congr fun x _ => ?_).symm
        by_cases hxs : x ∈ s
        · simp [hxs]
        · have hxa : x ≠ a := by rintro rfl; exact hxs ha
          simp [hxs, hxa]
      · rw [hrhs]
        simp only [firstKeep, if_neg ha]
        rw [key (a :: s), key [a], List.filter_cons]
        have hdec : (decide (a ∉ s)) = true := by simp [ha]
        rw [hdec, if_pos rfl]
        rw [filter_filter_comp]
        refine congrArg _ (List.filter_congr fun x _ => ?_)
        by_cases hxa : x = a
        · subst hxa; simp
        · by_cases hxs : x ∈ s <;> simp [hxa, hxs]

theorem mem_firstKeep_not_seen :
    ∀ (l s : List String) (x : String), x ∈ firstKeep s l → x ∉ s
  | [], _, _, hx => absurd hx (List.not_mem_nil _)
  | a :: l, s, x, hx => by
      by_cases ha : a ∈ s
      · rw [firstKeep, if_pos ha] at hx
        exact mem_firstKeep_not_seen l s x hx
      · rw [firstKeep, if_neg ha] at hx
        rcases List.mem_cons.mp hx with rfl | hx
        · exact ha
        · intro hxs
          exact mem_firstKeep_not_seen l (a :: s) x hx (List.mem_cons_of_mem a hxs)

theorem nodup_firstKeep :
    ∀ (l s : List String), (firstKeep s l).Nodup
  | [], _ => List.nodup_nil
  | a :: l, s => by
      by_cases ha : a ∈ s
      · rw [firstKeep, if_pos ha]
        exact nodup_firstKeep l s
      · rw [firstKeep, if_neg ha]
        refine List.nodup_cons.mpr ⟨fun hmem => ?_, nodup_firstKeep l (a :: s)⟩
        exact mem_firstKeep_not_seen l (a :: s) a hmem (List.mem_cons_self a s)

theorem allColumns_eq_specColumns (xm : XmlMapping) (km : MetMapping) :
    allColumns xm km = specColumns xm km := by
  unfold allColumns specColumns
  rw [firstKeep_append (xm.map Prod.fst) (km.map Prod.fst) []]
  rw [firstKeep_congr (km.map Prod.fst) (xm.map Prod.fst ++ []) (xm.map Prod.fst)
    (by simp)]
  rw [firstKeep_eq_filter (km.map Prod.fst) (xm.map Prod.fst)]

theorem processList_append (xm : XmlMapping) :
    ∀ l1 l2 : List DirEntry,
      processList xm (l1 ++ l2) =
        match processList xm l1, processList xm l2 with
        | .error exc, _ => .error exc
        | .ok _, .error exc => .error exc
        | .ok rg1, .ok rg2 => .ok (rg1.1 ++ rg2.1, rg1.2 ++ rg2.2)
  | [], l2 => by
      cases h : processList xm l2 <;> simp [processList, h]
  | e :: l1, l2 => by
      simp only [List.cons_append, processList, List.append_eq]
      cases he : processEntry xm e with
      | error exc => rfl
      | ok rg =>
          obtain ⟨r, lg⟩ := rg
          rw [processList_append xm l1 l2]
          cases h1 : processList xm l1 with
          | error exc => rfl
          | ok rg1 =>
              obtain ⟨r1, g1⟩ := rg1
              cases h2 : processList xm l2 with
              | error exc => rfl
              | ok rg2 =>
                  obtain ⟨r2, g2⟩ := rg2
                  by_cases ht : recordTruthy r = true <;> simp [ht, List.append_assoc]

/-- The record that one directory entry contributes to the result
sequence, if any. -/
def keptRecord (xm : XmlMapping) (e : DirEntry) : Option Record :=
  match processEntry xm e with
  | .ok rg => if recordTruthy rg.1 then some (rg.1.getD []) else none
  | .error _ => none

theorem processList_ok_records (xm : XmlMapping) :
    ∀ (l : List DirEntry) (recs : List Record) (lg : List LogMsg),
      processList xm l = .ok (recs, lg) → recs = l.filterMap (keptRecord xm)
  | [], recs, lg, h => by
      simp only [processList, Except.ok.injEq, Prod.mk.injEq] at h
      simp [← h.1]
  | e :: l, recs, lg, h => by
      simp only [processList] at h
      cases he : processEntry xm e with
      | error exc => rw [he] at h; exact absurd h (by simp)
      | ok rg =>
          obtain ⟨r, lg2⟩ := rg
          rw [he] at h
          cases hl : processList xm l with
          | error exc => rw [hl] at h; exact absurd h (by simp)
          | ok rg1 =>
              obtain ⟨r1, g1⟩ := rg1
              rw [hl] at h
              simp only [Except.ok.injEq, Prod.mk.injEq] at h
              obtain ⟨h1, h2⟩ := h
              subst h1
              have hrec := processList_ok_records xm l r1 g1 hl
              subst hrec
              rw [List.filterMap_cons]
              have hk : keptRecord xm e =
                  if recordTruthy r then some (r.getD []) else none := by
                unfold keptRecord
                rw [he]
              cases ht : recordTruthy r
              · rw [hk, ht]; simp
              · rw [hk, ht]; simp

/-! ### Sample data (used by the witnesses) -/

/-- The spec's example document
`<r><details><name>Ann</name><age>30</age></details><contact><email>a@x.com</email></contact></r>`. -/
def sampleRoot : Element :=
  .mk "r" none
    [.mk "details" none [.mk "name" (some "Ann") [], .mk "age" (some "30") []],
     .mk "contact" none [.mk "email" (some "a@x.com") []]]

/-- The hardcoded `xml_mapping` of the script. -/
def xmSample : XmlMapping :=
  [("Full Name", ["details", "name"]), ("Age", ["details", "age"]),
   ("Email Address", ["contact", "email"])]

/-- The hardcoded `met_mapping` of the script. -/
def kmSample : MetMapping :=
  [("Full Name", "Full Name"), ("Age", "Age"), ("Email Address", "Email Address")]

/-- A well-formed XML file entry holding `sampleRoot`. -/
def sampleXmlEntry : DirEntry := ⟨"a.xml", .ok [] (.ok sampleRoot)⟩

/-- A document whose `details/name` element is empty (`<name/>`). -/
def emptyNameRoot : Element := .mk "r" none [.mk "details" none [.mk "name" none []]]

/-- A readable `.met` file entry with one key-value line. -/
def metSampleEntry : DirEntry := ⟨"info.met", .ok ["Full Name: Bob"] (.error "not xml")⟩

/-! ### Claims -/

/-- C1: for every well-formed XML file and every XML field mapping,
`extract_from_xml` returns a record mapping each column to the text
content of the node matched by its path (verbatim), and to null for every
column whose path matches no node. -/
theorem C1_xml_field_extraction (m : XmlMapping) (name : String) (lines : List String)
    (root : Element) (c : String) (p : List String)
    (hnd : (m.map Prod.fst).Nodup) (hmem : (c, p) ∈ m) :
    ∃ rec : Record,
      extract_from_xml m ⟨name, .ok lines (.ok root)⟩ = .ok (some rec, []) ∧
      rec.lookup c = some (match findPath root p with
        | some el => el.text
        | none => none) := by
  refine ⟨_, rfl, ?_⟩
  have hmatch : (match findPath root p with
      | some el => el.text
      | none => none) = (findPath root p).bind Element.text := by
    cases findPath root p <;> rfl
  rw [hmatch]
  exact lookup_map_of_mem (fun q => (findPath root q).bind Element.text) m c p hnd hmem

theorem C1_xml_field_extraction_witness :
    ((xmSample.map Prod.fst).Nodup ∧ ("Full Name", ["details", "name"]) ∈ xmSample) ∧
    (∃ rec : Record,
      extract_from_xml xmSample ⟨"a.xml", .ok [] (.ok sampleRoot)⟩ = .ok (some rec, []) ∧
      rec.lookup "Full Name" = some (match findPath sampleRoot ["details", "name"] with
        | some el => el.text
        | none => none)) :=
  ⟨⟨by decide, by decide⟩,
    C1_xml_field_extraction xmSample "a.xml" [] sampleRoot "Full Name"
      ["details", "name"] (by decide) (by decide)⟩

/-- C10: a mapping path that matches an element with no text content
(e.g. `<name/>`) records null for its column, exactly like a path that
matches no node at all: the two cases are indistinguishable in the
record. -/
theorem C10_empty_element_indistinguishable (m : XmlMapping) (name : String)
    (lines : List String) (root : Element) (c c' : String) (p p' : List String)
    (el : Element)
    (hnd : (m.map Prod.fst).Nodup) (hmem : (c, p) ∈ m) (hmem' : (c', p') ∈ m)
    (hfind : findPath root p = some el) (htext : el.text = none)
    (hnofind : findPath root p' = none) :
    ∃ rec : Record,
      extract_from_xml m ⟨name, .ok lines (.ok root)⟩ = .ok (some rec, []) ∧
      rec.lookup c = some none ∧ rec.lookup c' = some none := by
  refine ⟨_, rfl, ?_, ?_⟩
  · have hb : (findPath root p).bind Element.text = none := by
      rw [hfind]
      exact htext
    exact (lookup_map_of_mem (fun q => (findPath root q).bind Element.text)
      m c p hnd hmem).trans (congrArg some hb)
  · have hb : (findPath root p').bind Element.text = none := by
      rw [hnofind]
      rfl
    exact (lookup_map_of_mem (fun q => (findPath root q).bind Element.text)
      m c' p' hnd hmem').trans (congrArg some hb)

theorem C10_empty_element_indistinguishable_witness :
    ((([("Full Name", ["details", "name"]), ("Missing", ["nope"])] : XmlMapping).map Prod.fst).Nodup ∧
     ("Full Name", ["details", "name"]) ∈
       ([("Full Name", ["details", "name"]), ("Missing", ["nope"])] : XmlMapping) ∧
     ("Missing", ["nope"]) ∈
       ([("Full Name", ["details", "name"]), ("Missing", ["nope"])] : XmlMapping) ∧
     findPath emptyNameRoot ["details", "name"] = some (.mk "name" none []) ∧
     (Element.mk "name" none []).text = none ∧
     findPath emptyNameRoot ["nope"] = none) ∧
    (∃ rec : Record,
      extract_from_xml [("Full Name", ["details", "name"]), ("Missing", ["nope"])]
          ⟨"e.xml", .ok [] (.ok emptyNameRoot)⟩ = .ok (some rec, []) ∧
      rec.lookup "Full Name" = some none ∧ rec.lookup "Missing" = some none) :=
  ⟨⟨by decide, by decide, by decide, rfl, rfl, rfl⟩,
    C10_empty_element_indistinguishable
      [("Full Name", ["details", "name"]), ("Missing", ["nope"])]
      "e.xml" [] emptyNameRoot "Full Name" "Missing" ["details", "name"] ["nope"]
      (.mk "name" none []) (by decide) (by decide) (by decide) rfl rfl rfl⟩

/-- C5: `extract_from_met` splits each line containing a colon at its
first colon only, trims both parts, ignores lines without a colon, lets a
later occurrence of a key overwrite an earlier one (the record value of a
column is the value of the LAST line whose key is the column's key), and
gives null for a key never seen. -/
theorem C5_met_extraction (m : MetMapping) (name : String) (lines : List String)
    (xmlv : Except String Element) (c k : String)
    (hnd : (m.map Prod.fst).Nodup) (hmem : (c, k) ∈ m) :
    (∃ rec : Record,
      extract_from_met m ⟨name, .ok lines xmlv⟩ = (some rec, []) ∧
      rec.lookup c = some (specLookup k lines)) ∧
    (∀ l kc vc : List Char, splitFirstColon l = some (kc, vc) →
      l = kc ++ ':' :: vc ∧ ':' ∉ kc) ∧
    (∀ l : List Char, splitFirstColon l = none ↔ ':' ∉ l) := by
  refine ⟨⟨_, rfl, ?_⟩, splitFirstColon_some, splitFirstColon_none⟩
  exact (lookup_map_of_mem (fun key => (buildFileData lines).lookup key)
    m c k hnd hmem).trans (congrArg some (lookup_buildFileData k lines))

theorem C5_met_extraction_witness :
    ((kmSample.map Prod.fst).Nodup ∧ ("Age", "Age") ∈ kmSample) ∧
    ((∃ rec : Record,
      extract_from_met kmSample ⟨"b.met", .ok ["Age: 25", " Age :  30 ", "junk"] (.error "x")⟩ =
        (some rec, []) ∧
      rec.lookup "Age" = some (specLookup "Age" ["Age: 25", " Age :  30 ", "junk"])) ∧
    (∀ l kc vc : List Char, splitFirstColon l = some (kc, vc) →
      l = kc ++ ':' :: vc ∧ ':' ∉ kc) ∧
    (∀ l : List Char, splitFirstColon l = none ↔ ':' ∉ l)) :=
  ⟨⟨by decide, by decide⟩,
    C5_met_extraction kmSample "b.met" ["Age: 25", " Age :  30 ", "junk"] (.error "x")
      "Age" "Age" (by decide) (by decide)⟩

/-- C2: false on the code: the `.met` dispatch branch of `process_folder`
is commented out, so a `.met` entry is silently ignored (no record, no
log line) even though `extract_from_met` would extract a record from it —
while `process_folder`'s own docstring promises processing of `.met`
files.  The `.xml` branch and the ignore-other-suffixes behaviour do hold;
only the "live, enabled branch" part fails. -/
theorem C2_met_dispatch_dead :
    processEntry [("Full Name", ["details", "name"])] metSampleEntry = .ok (none, []) ∧
    (extract_from_met [("Full Name", "Full Name")] metSampleEntry).1 =
      some [("Full Name", some "Bob")] := by
  constructor
  · decide
  · decide

theorem process_folder_ok_some (xm : XmlMapping) (km : MetMapping) (fp dest : String)
    (listing : List DirEntry) (res : RunResult) (cols : List String)
    (rows : List (List (Option String)))
    (hok : process_folder xm km fp dest listing = .ok res)
    (hout : res.output = some (cols, rows)) :
    cols = allColumns xm km ∧
    rows = (listing.filterMap (keptRecord xm)).map (shapeRow (allColumns xm km)) ∧
    listing.filterMap (keptRecord xm) ≠ [] := by
  cases hpl : processList xm listing with
  | error exc =>
      rw [process_folder, hpl] at hok
      exact absurd hok (by simp)
  | ok rg =>
      obtain ⟨recs, lg⟩ := rg
      have hpf : process_folder xm km fp dest listing =
          if recs.isEmpty then
            .ok ⟨none, (.scanStart fp :: lg) ++ [.noDataWarning]⟩
          else
            .ok ⟨some (allColumns xm km, recs.map (shapeRow (allColumns xm km))),
                 (.scanStart fp :: lg) ++ [.exportSuccess dest]⟩ := by
        rw [process_folder, hpl]
      rw [hpf] at hok
      have hrecs := processList_ok_records xm listing recs lg hpl
      by_cases hemp : recs.isEmpty
      · rw [if_pos hemp] at hok
        cases hok
        simp at hout
      · rw [if_neg hemp] at hok
        cases hok
        simp only [Option.some.injEq, Prod.mk.injEq] at hout
        obtain ⟨hcols, hrows⟩ := hout
        subst hcols
        refine ⟨rfl, ?_, ?_⟩
        · rw [← hrows, hrecs]
        · rw [← hrecs]
          intro hnil
          rw [hnil] at hemp
          exact hemp rfl

theorem process_folder_output_none_iff (xm : XmlMapping) (km : MetMapping)
    (fp dest : String) (listing : List DirEntry) (res : RunResult)
    (hok : process_folder xm km fp dest listing = .ok res) :
    res.output = none ↔ listing.filterMap (keptRecord xm) = [] := by
  cases hpl : processList xm listing with
  | error exc =>
      rw [process_folder, hpl] at hok
      exact absurd hok (by simp)
  | ok rg =>
      obtain ⟨recs, lg⟩ := rg
      have hpf : process_folder xm km fp dest listing =
          if recs.isEmpty then
            .ok ⟨none, (.scanStart fp :: lg) ++ [.noDataWarning]⟩
          else
            .ok ⟨some (allColumns xm km, recs.map (shapeRow (allColumns xm km))),
                 (.scanStart fp :: lg) ++ [.exportSuccess dest]⟩ := by
        rw [process_folder, hpl]
      rw [hpf] at hok
      have hrecs := processList_ok_records xm listing recs lg hpl
      by_cases hemp : recs.isEmpty
      · rw [if_pos hemp] at hok
        cases hok
        constructor
        · intro _
          rw [← hrecs]
          exact List.isEmpty_iff.mp hemp
        · intro _
          rfl
      · rw [if_neg hemp] at hok
        cases hok
        constructor
        · intro h
          exact absurd h (by simp)
        · intro hnil
          exfalso
          rw [← hrecs] at hnil
          rw [hnil] at hemp
          exact hemp rfl

/-- C3: whenever at least one record is collected, the exported table's
column order is the first-seen order of the XML mapping keys followed by
the Key-Value mapping keys not already present (duplicates collapsed);
this order is independent of the processed listing; and every record is
shaped to this column set, a missing field rendering as an empty cell. -/
theorem C3_column_order_and_shape (xm : XmlMapping) (km : MetMapping)
    (fp dest : String) (listing : List DirEntry) (res : RunResult)
    (cols : List String) (rows : List (List (Option String)))
    (hok : process_folder xm km fp dest listing = .ok res)
    (hout : res.output = some (cols, rows)) :
    cols = specColumns xm km ∧ cols.Nodup ∧
    (∀ (listing' : List DirEntry) (res' : RunResult) (cols' : List String)
        (rows' : List (List (Option String))),
        process_folder xm km fp dest listing' = .ok res' →
        res'.output = some (cols', rows') → cols' = cols) ∧
    (∀ row ∈ rows, ∃ rec : Record, ∀ i : Nat,
        row[i]? = cols[i]?.map fun col => (rec.lookup col).join) := by
  obtain ⟨hcols, hrows, -⟩ :=
    process_folder_ok_some xm km fp dest listing res cols rows hok hout
  subst hcols
  refine ⟨allColumns_eq_specColumns xm km, nodup_firstKeep _ _, ?_, ?_⟩
  · intro listing' res' cols' rows' hok' hout'
    obtain ⟨hcols', -, -⟩ :=
      process_folder_ok_some xm km fp dest listing' res' cols' rows' hok' hout'
    exact hcols'
  · subst hrows
    intro row hrow
    obtain ⟨rec, -, rfl⟩ := List.mem_map.mp hrow
    refine ⟨rec, fun i => ?_⟩
    rw [shapeRow, List.getElem?_map]

/-- The run of the script on a folder holding just the spec's example
XML file. -/
def c3res : RunResult :=
  ⟨some (["Full Name", "Age", "Email Address"],
    [[some "Ann", some "30", some "a@x.com"]]),
   [.scanStart "d", .extractingXml "a.xml", .exportSuccess "o"]⟩

theorem C3_column_order_and_shape_witness :
    (process_folder xmSample kmSample "d" "o" [sampleXmlEntry] = .ok c3res ∧
     c3res.output = some (["Full Name", "Age", "Email Address"],
       [[some "Ann", some "30", some "a@x.com"]])) ∧
    (["Full Name", "Age", "Email Address"] = specColumns xmSample kmSample ∧
     (["Full Name", "Age", "Email Address"] : List String).Nodup ∧
     (∀ (listing' : List DirEntry) (res' : RunResult) (cols' : List String)
         (rows' : List (List (Option String))),
         process_folder xmSample kmSample "d" "o" listing' = .ok res' →
         res'.output = some (cols', rows') →
         cols' = ["Full Name", "Age", "Email Address"]) ∧
     (∀ row ∈ [[some "Ann", some "30", some "a@x.com"]], ∃ rec : Record, ∀ i : Nat,
         row[i]? = (["Full Name", "Age", "Email Address"] : List String)[i]?.map
           fun col => (rec.lookup col).join)) :=
  ⟨⟨by decide, by decide⟩,
    C3_column_order_and_shape xmSample kmSample "d" "o" [sampleXmlEntry] c3res
      ["Full Name", "Age", "Email Address"] [[some "Ann", some "30", some "a@x.com"]]
      (by decide) (by decide)⟩

/-- C7: after the whole listing is processed, either zero records were
collected — then no output is written and the last log line is the
warning — or the full table is written exactly once, the last log line
being the success notice naming the destination. -/
theorem C7_all_or_nothing (xm : XmlMapping) (km : MetMapping) (fp dest : String)
    (listing : List DirEntry) (res : RunResult)
    (hok : process_folder xm km fp dest listing = .ok res) :
    (res.output = none ∧ res.log.getLast? = some .noDataWarning) ∨
    (∃ cols rows, res.output = some (cols, rows) ∧ rows ≠ [] ∧
      res.log.getLast? = some (.exportSuccess dest)) := by
  cases hpl : processList xm listing with
  | error exc =>
      rw [process_folder, hpl] at hok
      exact absurd hok (by simp)
  | ok rg =>
      obtain ⟨recs, lg⟩ := rg
      have hpf : process_folder xm km fp dest listing =
          if recs.isEmpty then
            .ok ⟨none, (.scanStart fp :: lg) ++ [.noDataWarning]⟩
          else
            .ok ⟨some (allColumns xm km, recs.map (shapeRow (allColumns xm km))),
                 (.scanStart fp :: lg) ++ [.exportSuccess dest]⟩ := by
        rw [process_folder, hpl]
      rw [hpf] at hok
      by_cases hemp : recs.isEmpty
      · rw [if_pos hemp] at hok
        cases hok
        left
        exact ⟨rfl, List.getLast?_concat _⟩
      · rw [if_neg hemp] at hok
        cases hok
        right
        refine ⟨_, _, rfl, ?_, List.getLast?_concat _⟩
        cases recs with
        | nil => exact absurd rfl hemp
        | cons a t => simp

theorem C7_all_or_nothing_witness :
    process_folder xmSample kmSample "d" "o" [] =
      .ok ⟨none, [.scanStart "d", .noDataWarning]⟩ ∧
    (((⟨none, [.scanStart "d", .noDataWarning]⟩ : RunResult).output = none ∧
      (⟨none, [.scanStart "d", .noDataWarning]⟩ : RunResult).log.getLast? =
        some .noDataWarning) ∨
     (∃ cols rows,
       (⟨none, [.scanStart "d", .noDataWarning]⟩ : RunResult).output = some (cols, rows) ∧
       rows ≠ [] ∧
       (⟨none, [.scanStart "d", .noDataWarning]⟩ : RunResult).log.getLast? =
         some (.exportSuccess "o"))) :=
  ⟨by decide,
    C7_all_or_nothing xmSample kmSample "d" "o" []
      ⟨none, [.scanStart "d", .noDataWarning]⟩ (by decide)⟩

/-- C8: false on the code: a record is appended under Python's `if record:`
truthiness check, so a successful extraction returning an EMPTY record
(non-null — it happens whenever the XML mapping is empty) contributes no
row, contradicting "every successful extraction yields one row ...
regardless of the Record's contents". -/
theorem C8_empty_record_dropped :
    extract_from_xml ([] : XmlMapping) sampleXmlEntry = .ok (some [], []) ∧
    processList ([] : XmlMapping) [sampleXmlEntry] =
      .ok ([], [.extractingXml "a.xml"]) := by
  constructor
  · decide
  · decide

/-- C8 (amended): a returned record is appended to the result sequence
iff it is non-null AND non-empty; a null extraction or an empty record
contributes nothing. -/
theorem C8_truthy_records_appended (xm : XmlMapping) (e : DirEntry)
    (rest : List DirEntry) (r : Option Record) (lg : List LogMsg)
    (recs : List Record) (lgs : List LogMsg)
    (he : processEntry xm e = .ok (r, lg))
    (hrest : processList xm rest = .ok (recs, lgs)) :
    (∀ rec : Record, r = some rec → rec ≠ [] →
      processList xm (e :: rest) = .ok (rec :: recs, lg ++ lgs)) ∧
    ((r = none ∨ r = some []) →
      processList xm (e :: rest) = .ok (recs, lg ++ lgs)) := by
  constructor
  · rintro rec rfl hne
    cases rec with
    | nil => exact absurd rfl hne
    | cons a t => simp [processList, he, hrest, recordTruthy]
  · rintro (rfl | rfl) <;> simp [processList, he, hrest, recordTruthy]

/-- The record the script's own mapping extracts from the spec's example
document. -/
def recAnn : Record :=
  [("Full Name", some "Ann"), ("Age", some "30"), ("Email Address", some "a@x.com")]

theorem C8_truthy_records_appended_witness :
    (processEntry xmSample sampleXmlEntry = .ok (some recAnn, [.extractingXml "a.xml"]) ∧
     processList xmSample [] = .ok ([], [])) ∧
    ((∀ rec : Record, some recAnn = some rec → rec ≠ [] →
       processList xmSample [sampleXmlEntry] =
         .ok (rec :: [], [.extractingXml "a.xml"] ++ [])) ∧
     ((some recAnn = none ∨ some recAnn = some []) →
       processList xmSample [sampleXmlEntry] = .ok ([], [.extractingXml "a.xml"] ++ []))) :=
  ⟨⟨by decide, by decide⟩,
    C8_truthy_records_appended xmSample sampleXmlEntry [] (some recAnn)
      [.extractingXml "a.xml"] [] [] (by decide) (by decide)⟩

/-- C9: re-running against an unchanged directory (its listing possibly
enumerated in another order) with the same mappings and destination
yields the same column set and the same multiset of rows, and writes an
output iff the other run does. -/
theorem C9_rerun_same_rows (xm : XmlMapping) (km : MetMapping) (fp dest : String)
    (l1 l2 : List DirEntry) (hperm : l1.Perm l2) (res1 res2 : RunResult)
    (h1 : process_folder xm km fp dest l1 = .ok res1)
    (h2 : process_folder xm km fp dest l2 = .ok res2) :
    (res1.output = none ↔ res2.output = none) ∧
    ∀ cols1 rows1 cols2 rows2,
      res1.output = some (cols1, rows1) → res2.output = some (cols2, rows2) →
      cols1 = cols2 ∧ rows1.Perm rows2 := by
  have hpermk := hperm.filterMap (keptRecord xm)
  constructor
  · rw [process_folder_output_none_iff xm km fp dest l1 res1 h1,
        process_folder_output_none_iff xm km fp dest l2 res2 h2]
    constructor
    · intro hnil
      have hp : ([] : List Record).Perm (l2.filterMap (keptRecord xm)) := hnil ▸ hpermk
      exact hp.symm.eq_nil
    · intro hnil
      have hp : (l1.filterMap (keptRecord xm)).Perm [] := hnil ▸ hpermk
      exact hp.eq_nil
  · intro cols1 rows1 cols2 rows2 ho1 ho2
    obtain ⟨hc1, hr1, -⟩ :=
      process_folder_ok_some xm km fp dest l1 res1 cols1 rows1 h1 ho1
    obtain ⟨hc2, hr2, -⟩ :=
      process_folder_ok_some xm km fp dest l2 res2 cols2 rows2 h2 ho2
    subst hc1; subst hc2
    refine ⟨rfl, ?_⟩
    rw [hr1, hr2]
    exact hpermk.map (shapeRow (allColumns xm km))

/-- A second well-formed XML file entry (whose `name` element is empty). -/
def entryB : DirEntry := ⟨"b.xml", .ok [] (.ok emptyNameRoot)⟩

/-- Result of running on `[a.xml, b.xml]` in that enumeration order. -/
def c9res1 : RunResult :=
  ⟨some (["Full Name", "Age", "Email Address"],
    [[some "Ann", some "30", some "a@x.com"], [none, none, none]]),
   [.scanStart "d", .extractingXml "a.xml", .extractingXml "b.xml", .exportSuccess "o"]⟩

/-- Result of running on the same directory enumerated as `[b.xml, a.xml]`. -/
def c9res2 : RunResult :=
  ⟨some (["Full Name", "Age", "Email Address"],
    [[none, none, none], [some "Ann", some "30", some "a@x.com"]]),
   [.scanStart "d", .extractingXml "b.xml", .extractingXml "a.xml", .exportSuccess "o"]⟩

theorem C9_rerun_same_rows_witness :
    (([sampleXmlEntry, entryB] : List DirEntry).Perm [entryB, sampleXmlEntry] ∧
     process_folder xmSample kmSample "d" "o" [sampleXmlEntry, entryB] = .ok c9res1 ∧
     process_folder xmSample kmSample "d" "o" [entryB, sampleXmlEntry] = .ok c9res2) ∧
    ((c9res1.output = none ↔ c9res2.output = none) ∧
     ∀ cols1 rows1 cols2 rows2,
       c9res1.output = some (cols1, rows1) → c9res2.output = some (cols2, rows2) →
       cols1 = cols2 ∧ rows1.Perm rows2) :=
  ⟨⟨List.Perm.swap entryB sampleXmlEntry [], by decide, by decide⟩,
    C9_rerun_same_rows xmSample kmSample "d" "o" [sampleXmlEntry, entryB]
      [entryB, sampleXmlEntry] (List.Perm.swap entryB sampleXmlEntry [])
      c9res1 c9res2 (by decide) (by decide)⟩

/-- C4: a file whose content fails to parse as XML makes
`extract_from_xml` return no record after logging the file identifier and
the underlying cause; the failure never aborts the batch: inserting such a
file anywhere in the listing leaves the run's output unchanged and only
adds the error log line. -/
theorem C4_parse_error_logged_and_skipped (xm : XmlMapping) (km : MetMapping)
    (fp dest : String) (pre post : List DirEntry) (name : String)
    (lines : List String) (cause : String)
    (hxml : pyEndsWith (pyLower name) ".xml" = true) :
    extract_from_xml xm ⟨name, .ok lines (.error cause)⟩ =
      .ok (none, [.xmlParseFailed name cause]) ∧
    ∀ res : RunResult, process_folder xm km fp dest (pre ++ post) = .ok res →
      ∃ res' : RunResult,
        process_folder xm km fp dest
          (pre ++ ⟨name, .ok lines (.error cause)⟩ :: post) = .ok res' ∧
        res'.output = res.output ∧ .xmlParseFailed name cause ∈ res'.log := by
  have hentry : processEntry xm ⟨name, .ok lines (.error cause)⟩ =
      .ok (none, [.extractingXml name, .xmlParseFailed name cause]) := by
    simp [processEntry, hxml, extract_from_xml]
  refine ⟨rfl, ?_⟩
  intro res hres
  cases hpre : processList xm pre with
  | error exc =>
      exfalso
      rw [process_folder, processList_append xm pre post, hpre] at hres
      exact absurd hres (by simp)
  | ok rgp =>
      obtain ⟨rp, gp⟩ := rgp
      cases hpost : processList xm post with
      | error exc =>
          exfalso
          rw [process_folder, processList_append xm pre post, hpre, hpost] at hres
          exact absurd hres (by simp)
      | ok rgq =>
          obtain ⟨rq, gq⟩ := rgq
          have h1 : processList xm (pre ++ post) = .ok (rp ++ rq, gp ++ gq) := by
            rw [processList_append xm pre post, hpre, hpost]
          have hmid : processList xm (⟨name, .ok lines (.error cause)⟩ :: post) =
              .ok (rq, [.extractingXml name, .xmlParseFailed name cause] ++ gq) := by
            simp [processList, hentry, hpost, recordTruthy]
          have h2 : processList xm (pre ++ ⟨name, .ok lines (.error cause)⟩ :: post) =
              .ok (rp ++ rq, gp ++ ([.extractingXml name, .xmlParseFailed name cause] ++ gq)) := by
            rw [processList_append xm pre (⟨name, .ok lines (.error cause)⟩ :: post),
              hpre, hmid]
          have hpf1 : process_folder xm km fp dest (pre ++ post) =
              if (rp ++ rq).isEmpty then
                .ok ⟨none, (.scanStart fp :: (gp ++ gq)) ++ [.noDataWarning]⟩
              else
                .ok ⟨some (allColumns xm km, (rp ++ rq).map (shapeRow (allColumns xm km))),
                     (.scanStart fp :: (gp ++ gq)) ++ [.exportSuccess dest]⟩ := by
            rw [process_folder, h1]
          have hpf2 : process_folder xm km fp dest
              (pre ++ ⟨name, .ok lines (.error cause)⟩ :: post) =
              if (rp ++ rq).isEmpty then
                .ok ⟨none,
                  (.scanStart fp ::
                    (gp ++ ([.extractingXml name, .xmlParseFailed name cause] ++ gq))) ++
                  [.noDataWarning]⟩
              else
                .ok ⟨some (allColumns xm km, (rp ++ rq).map (shapeRow (allColumns xm km))),
                  (.scanStart fp ::
                    (gp ++ ([.extractingXml name, .xmlParseFailed name cause] ++ gq))) ++
                  [.exportSuccess dest]⟩ := by
            rw [process_folder, h2]
          rw [hpf1] at hres
          by_cases hemp : (rp ++ rq).isEmpty
          · rw [if_pos hemp] at hres
            cases hres
            refine ⟨⟨none,
                (.scanStart fp ::
                  (gp ++ ([.extractingXml name, .xmlParseFailed name cause] ++ gq))) ++
                [.noDataWarning]⟩,
              by rw [hpf2, if_pos hemp], rfl, ?_⟩
            simp
          · rw [if_neg hemp] at hres
            cases hres
            refine ⟨⟨some (allColumns xm km, (rp ++ rq).map (shapeRow (allColumns xm km))),
                (.scanStart fp ::
                  (gp ++ ([.extractingXml name, .xmlParseFailed name cause] ++ gq))) ++
                [.exportSuccess dest]⟩,
              by rw [hpf2, if_neg hemp], rfl, ?_⟩
            simp

theorem C4_parse_error_logged_and_skipped_witness :
    pyEndsWith (pyLower "bad.xml") ".xml" = true ∧
    process_folder xmSample kmSample "d" "o" ([] ++ []) =
      .ok ⟨none, [.scanStart "d", .noDataWarning]⟩ ∧
    extract_from_xml xmSample ⟨"bad.xml", .ok ["<r><oops"] (.error "no element found")⟩ =
      .ok (none, [.xmlParseFailed "bad.xml" "no element found"]) ∧
    (∃ res' : RunResult,
      process_folder xmSample kmSample "d" "o"
        ([] ++ ⟨"bad.xml", .ok ["<r><oops"] (.error "no element found")⟩ :: []) = .ok res' ∧
      res'.output = (⟨none, [.scanStart "d", .noDataWarning]⟩ : RunResult).output ∧
      .xmlParseFailed "bad.xml" "no element found" ∈ res'.log) :=
  ⟨by decide, by decide,
    (C4_parse_error_logged_and_skipped xmSample kmSample "d" "o" [] [] "bad.xml"
      ["<r><oops"] "no element found" (by decide)).1,
    (C4_parse_error_logged_and_skipped xmSample kmSample "d" "o" [] [] "bad.xml"
      ["<r><oops"] "no element found" (by decide)).2
      ⟨none, [.scanStart "d", .noDataWarning]⟩ (by decide)⟩

/-- An XML-named entry whose open raises an IOError. -/
def unreadableXmlEntry : DirEntry := ⟨"bad.xml", .ioError "denied"⟩

/-- C6: false on the code: `extract_from_xml` catches only `ParseError`,
so an IOError opening an XML file propagates uncaught and aborts the whole
batch — here the readable `a.xml` after the unreadable file is never
exported and nothing is written. -/
theorem C6_ioerror_aborts_batch :
    process_folder xmSample kmSample "d" "o" [unreadableXmlEntry, sampleXmlEntry] =
      .error (.ioError "denied") := by
  decide

/-- C6 (amended): an IOError is caught, logged and skipped only inside the
Key-Value Extractor (`extract_from_met`, which returns no record so a
batch would continue); an IOError opening an XML-named file is not caught
anywhere and aborts the whole run. -/
theorem C6_ioerror_met_only (m : MetMapping) (xm : XmlMapping) (km : MetMapping)
    (fp dest name msg : String) (pre post : List DirEntry)
    (hxml : pyEndsWith (pyLower name) ".xml" = true) :
    extract_from_met m ⟨name, .ioError msg⟩ = (none, [.metReadFailed name msg]) ∧
    ∃ exc : PyExc,
      process_folder xm km fp dest (pre ++ ⟨name, .ioError msg⟩ :: post) = .error exc := by
  refine ⟨rfl, ?_⟩
  have hentry : processEntry xm ⟨name, .ioError msg⟩ = .error (.ioError msg) := by
    simp [processEntry, hxml, extract_from_xml]
  have hmid : processList xm (⟨name, .ioError msg⟩ :: post) = .error (.ioError msg) := by
    simp [processList, hentry]
  cases hpre : processList xm pre with
  | error exc =>
      refine ⟨exc, ?_⟩
      rw [process_folder, processList_append xm pre (⟨name, .ioError msg⟩ :: post), hpre]
  | ok rgp =>
      refine ⟨.ioError msg, ?_⟩
      rw [process_folder, processList_append xm pre (⟨name, .ioError msg⟩ :: post),
        hpre, hmid]

theorem C6_ioerror_met_only_witness :
    pyEndsWith (pyLower "bad.xml") ".xml" = true ∧
    (extract_from_met kmSample ⟨"bad.xml", .ioError "denied"⟩ =
      (none, [.metReadFailed "bad.xml" "denied"]) ∧
     ∃ exc : PyExc,
       process_folder xmSample kmSample "d" "o"
         ([] ++ ⟨"bad.xml", .ioError "denied"⟩ :: [sampleXmlEntry]) = .error exc) :=
  ⟨by decide,
    C6_ioerror_met_only kmSample xmSample kmSample "d" "o" "bad.xml" "denied"
      [] [sampleXmlEntry] (by decide)⟩

end XmlDumpScript
